import Mathlib

/-!
Shallow embedding of the `deploy_model` deployment tooling
(`deploy-model.py`, `modules/monitor_endpoint.py`, `utils/env_validation.py`)
and proofs about its monitoring, rollback, and validation logic.

Python values that can be `None` are modelled with `Option`; the Python
runtime's distinction between `ClientError` and other exceptions is modelled
with an explicit result type.  Wall-clock time is modelled by instrumenting
the polling loop with the total number of seconds slept (the only way time
advances in the loop body is `time.sleep`).
-/

namespace DeployModel

/-! ## Collaborator call outcomes

A call into the cloud SDK either succeeds, raises a `ClientError` carrying a
message, or raises some other exception. -/

inductive CallResult where
  | ok
  | clientError (msg : String)
  | otherError
deriving DecidableEq, Repr

/-! ## `delete_endpoint` (modules/monitor_endpoint.py, lines 184-215)

The outer `try` wraps both deletions; the inner `try` around
`delete_endpoint_config` catches only `ClientError` (printing a warning and
falling through to `return True`).  A non-`ClientError` exception from the
config deletion escapes to the outer handler, which returns `False`. -/

def delete_endpoint (epDel : CallResult) (cfgDel : CallResult)
    (delete_config : Bool) : Bool :=
  match epDel with
  | .clientError _ => false
  | .otherError => false
  | .ok =>
    if delete_config then
      match cfgDel with
      | .ok => true
      | .clientError _ => true
      | .otherError => false
    else true

/-! ## `monitor_and_tail` result plumbing (modules/monitor_endpoint.py, lines 254-291)

`status_result = {'status': None}`; the poller thread writes
`status_result['status'] = status`; the final line is
`return status_result.get('status', 'Unknown')`.  Python dictionaries and
`dict.get` (default used only when the key is absent) are modelled directly. -/

inductive PyVal where
  | pyNone
  | pyStr (s : String)
deriving DecidableEq, Repr

def dict_get (d : List (String × PyVal)) (k : String) (default : PyVal) : PyVal :=
  match d.find? (fun p => p.1 == k) with
  | some p => p.2
  | none => default

def dict_set (d : List (String × PyVal)) (k : String) (v : PyVal) :
    List (String × PyVal) :=
  if d.any (fun p => p.1 == k) then
    d.map (fun p => if p.1 == k then (k, v) else p)
  else d ++ [(k, v)]

/-- The value returned by `monitor_and_tail`, as a function of whether the
poller thread wrote a terminal state into the shared slot (`some s`) or never
wrote one (`none`). -/
def monitor_and_tail_result (pollerResult : Option String) : PyVal :=
  let init : List (String × PyVal) := [("status", PyVal.pyNone)]
  let final :=
    match pollerResult with
    | some s => dict_set init "status" (PyVal.pyStr s)
    | none => init
  dict_get final "status" (PyVal.pyStr "Unknown")

/-! ## `generate_endpoint_name` (deploy-model.py, lines 188-207)

`if custom_name:` is Python truthiness: both `None` and `''` take the
`else` branch.  The timestamp string produced by `time.strftime` on
`time.gmtime()` is an input of the model. -/

def generate_endpoint_name (custom_name : Option String) (utcTimestamp : String) :
    String :=
  match custom_name with
  | some s => if s = "" then "qc-ai-detection-ep-" ++ utcTimestamp else s
  | none => "qc-ai-detection-ep-" ++ utcTimestamp

/-! ## `handle_deployment_result` (deploy-model.py, lines 210-317)

Returns the exit code; we additionally record whether the rollback deletion
(`delete_endpoint`) was invoked.  The boolean result of the rollback only
selects which message block is printed; both branches fall through to
`return 1`. -/

structure DeployResult where
  exitCode : Nat
  rollbackInvoked : Bool
deriving DecidableEq, Repr

def handle_deployment_result (status : String) (rollback_on_failure : Bool)
    (_rollbackOutcome : Bool) : DeployResult :=
  if status = "InService" then
    { exitCode := 0, rollbackInvoked := false }
  else if status = "Failed" ∨ status = "Timeout" then
    if rollback_on_failure then
      { exitCode := 1, rollbackInvoked := true }
    else
      { exitCode := 1, rollbackInvoked := false }
  else
    { exitCode := 1, rollbackInvoked := false }

/-! ## Top-level exit-code mapping (deploy-model.py, `__main__`, lines 397-550)

The main flow exits 1 at each failed validation step (`validate_env_vars`,
`validate_instance_type`, empty package list), exits 0 in the `--no-monitor`
branch, and otherwise exits with `handle_deployment_result`'s code. -/

def main_exit_code (envValid typeValid packagesFound monitorEnabled : Bool)
    (status : String) (rollbackEnabled rollbackOutcome : Bool) : Nat :=
  if !envValid then 1
  else if !typeValid then 1
  else if !packagesFound then 1
  else if monitorEnabled then
    (handle_deployment_result status rollbackEnabled rollbackOutcome).exitCode
  else 0

/-! ## `validate_env_vars` (utils/env_validation.py, lines 13-63)

The environment maps each name to an optional string (`none` = unset).
The loop accumulates error lines and validated entries; a variable fails when
`not value or value.strip() == ""`.  If any error accumulated, the function
calls `sys.exit(1)` (modelled as `Except.error 1`); otherwise it returns the
validated dictionary (kept as an association list in insertion order). -/

/-- Python's `str.strip()` with no argument: remove leading and trailing
whitespace. -/
def pyStrip (s : String) : String :=
  ((s.data.dropWhile Char.isWhitespace).reverse.dropWhile
    Char.isWhitespace).reverse.asString

def envVarBlank : Option String → Bool
  | none => true
  | some v => v == "" || pyStrip v == ""

def envStep (env : String → Option String)
    (acc : List String × List (String × String)) (p : String × String) :
    List String × List (String × String) :=
  match env p.1 with
  | none => (acc.1 ++ [p.1], acc.2)
  | some v =>
    if v == "" || pyStrip v == "" then (acc.1 ++ [p.1], acc.2)
    else (acc.1, acc.2 ++ [(p.1, v)])

def validate_env_vars (required_vars : List (String × String))
    (env : String → Option String) : Except Nat (List (String × String)) :=
  let r := required_vars.foldl (envStep env) ([], [])
  if r.1.isEmpty then .ok r.2 else .error 1

/-! ## Substring test

`'Could not find endpoint' in str(e)` is Python substring containment. -/

def charsMatchHere : List Char → List Char → Bool
  | [], _ => true
  | _ :: _, [] => false
  | c :: cs, d :: ds => c == d && charsMatchHere cs ds

def charsHaveSub (needle : List Char) : List Char → Bool
  | [] => charsMatchHere needle []
  | c :: t => charsMatchHere needle (c :: t) || charsHaveSub needle t

def strHasSub (hay needle : String) : Bool :=
  charsHaveSub needle.data hay.data

def notFoundText : String := "Could not find endpoint"

/-! ## `monitor_endpoint_status` (modules/monitor_endpoint.py, lines 118-181)

One `describe_endpoint` call per loop iteration; the response of the `i`-th
call is `src i`.  A status response carries the `EndpointStatus` string.
Elapsed time is the accumulated `time.sleep(check_interval)` total: the loop
condition `(time.time() - start_time) < max_wait_seconds` is checked against
it.  `InService`/`Failed` return without sleeping; `Creating`, `Updating`,
and any unexpected status sleep `check_interval` and retry; a `ClientError`
whose message contains "Could not find endpoint" sleeps and retries; any
other `ClientError` or exception returns `'Error'` without sleeping.

The recursion is driven by fuel; with a positive `check_interval` (the
source's default is 30) a fuel of `max_wait_seconds + 1` is never exhausted,
since every retry adds at least one second of sleep.  The result pairs the
returned status string with the elapsed time at the moment of return. -/

inductive StatusResp where
  | status (s : String)
  | clientError (msg : String)
  | otherError
deriving DecidableEq, Repr

def pollLoop (src : Nat → StatusResp) (check_interval max_wait_seconds : Nat) :
    Nat → Nat → Nat → String × Nat
  | 0, _, elapsed => ("FuelExhausted", elapsed)
  | fuel + 1, i, elapsed =>
    if elapsed < max_wait_seconds then
      match src i with
      | .status s =>
        if s = "InService" then ("InService", elapsed)
        else if s = "Failed" then ("Failed", elapsed)
        else pollLoop src check_interval max_wait_seconds fuel (i + 1)
          (elapsed + check_interval)
      | .clientError msg =>
        if strHasSub msg notFoundText then
          pollLoop src check_interval max_wait_seconds fuel (i + 1)
            (elapsed + check_interval)
        else ("Error", elapsed)
      | .otherError => ("Error", elapsed)
    else ("Timeout", elapsed)

def monitor_endpoint_status (src : Nat → StatusResp)
    (check_interval max_wait_seconds : Nat) : String × Nat :=
  pollLoop src check_interval max_wait_seconds (max_wait_seconds + 1) 0 0

/-- A collaborator response on which the source's loop retries after sleeping
one interval: a non-terminal status, or a not-found client error. -/
def transientResp (r : StatusResp) : Prop :=
  (∃ s, r = StatusResp.status s ∧ s ≠ "InService" ∧ s ≠ "Failed") ∨
  (∃ m, r = StatusResp.clientError m ∧ strHasSub m notFoundText = true)

/-- A collaborator error on which the source's loop stops with `'Error'`:
a client error whose message lacks the not-found marker, or any other
exception. -/
def unrecoverableResp (r : StatusResp) : Prop :=
  (∃ m, r = StatusResp.clientError m ∧ strHasSub m notFoundText = false) ∨
  r = StatusResp.otherError

/-! ## `tail_logs` (modules/monitor_endpoint.py, lines 51-115)

A CloudWatch event carries a stream name, an epoch-millisecond timestamp, an
event id (a decimal number in the service), and a message.  The loop body
processes the batch returned by one `filter_log_events` call: an event whose
dedup key `f"{stream}_{timestamp}_{eventId}"` was already seen is skipped;
otherwise the key is recorded, the line is printed, and the cursor advances
via `last_timestamp = max(last_timestamp, timestamp + 1)`.  The session
state is the cursor, the set of seen keys, and the list of printed events. -/

structure LogEvent where
  logStreamName : String
  timestamp : Int
  eventId : Nat
  message : String
deriving DecidableEq, Repr

def eventKey (e : LogEvent) : String :=
  e.logStreamName ++ "_" ++ toString e.timestamp ++ "_" ++ toString e.eventId

structure TailState where
  last_timestamp : Int
  seen_events : List String
  printed : List LogEvent
deriving DecidableEq, Repr

def processEvent (st : TailState) (e : LogEvent) : TailState :=
  if st.seen_events.contains (eventKey e) then st
  else
    { last_timestamp := max st.last_timestamp (e.timestamp + 1),
      seen_events := eventKey e :: st.seen_events,
      printed := st.printed ++ [e] }

def processBatch (st : TailState) (batch : List LogEvent) : TailState :=
  batch.foldl processEvent st

/-- One tailing session: the initial cursor is the 10-minute lookback value,
and `batches` lists the event batches returned by the successive
`filter_log_events` calls of the session. -/
def tail_logs_run (initTimestamp : Int) (batches : List (List LogEvent)) :
    TailState :=
  batches.foldl processBatch
    { last_timestamp := initTimestamp, seen_events := [], printed := [] }

def natDigits (n : Nat) : List Char :=
  if _h : n < 10 then [Nat.digitChar n]
  else natDigits (n / 10) ++ [Nat.digitChar (n % 10)]
decreasing_by exact Nat.div_lt_self (by omega) (by omega)

def digitVal (c : Char) : Nat := c.toNat - '0'.toNat

def valOfDigits (l : List Char) : Nat :=
  l.foldl (fun a c => 10 * a + digitVal c) 0

/-- Every event whose dedup key has been recorded lies strictly below the
cursor: the code advanced the cursor to `timestamp + 1` when it first saw
that key, and the cursor never moved back. -/
def CursorInv (st : TailState) : Prop :=
  ∀ e : LogEvent, eventKey e ∈ st.seen_events → e.timestamp < st.last_timestamp

/-- Dedup bookkeeping: for every key, the number of printed events carrying
that key is 1 if the key has been recorded as seen and 0 otherwise. -/
def SeenInv (st : TailState) : Prop :=
  ∀ k : String,
    (st.printed.filter (fun e => eventKey e == k)).length
      = if k ∈ st.seen_events then 1 else 0

/-- Concrete environment for the validation witness: both required variables
of `deploy-model.py` set to realistic values. -/
def envAllSet : String → Option String := fun n =>
  if n = "AWS_REGION" then some "ca-central-1"
  else if n = "SAGEMAKER_EXECUTION_ROLE_ARN" then
    some "arn:aws:iam::123456789012:role/SageMakerRole"
  else none

def deployRequiredEnv : List (String × String) :=
  [("AWS_REGION", "AWS region for SageMaker deployment"),
   ("SAGEMAKER_EXECUTION_ROLE_ARN", "IAM role ARN for SageMaker execution")]

/-! ## Decimal rendering facts

The dedup key concatenates the components with `'_'`, and the numeric
components render without `'_'` or `'-'`-ambiguity, so equal keys force equal
timestamps.  We relate `Nat.repr` to a structurally transparent digit list. -/

lemma natDigits_of_lt {n : Nat} (h : n < 10) :
    natDigits n = [Nat.digitChar n] := by
  rw [natDigits]; simp [h]

lemma natDigits_of_ge {n : Nat} (h : ¬ n < 10) :
    natDigits n = natDigits (n / 10) ++ [Nat.digitChar (n % 10)] := by
  conv_lhs => rw [natDigits]
  simp [h]

lemma toDigitsCore_eq_natDigits :
    ∀ (fuel n : Nat) (ds : List Char), n < fuel →
      Nat.toDigitsCore 10 fuel n ds = natDigits n ++ ds := by
  intro fuel
  induction fuel with
  | zero => intro n ds h; omega
  | succ fuel ih =>
    intro n ds h
    show (if n / 10 = 0 then Nat.digitChar (n % 10) :: ds
          else Nat.toDigitsCore 10 fuel (n / 10) (Nat.digitChar (n % 10) :: ds))
        = natDigits n ++ ds
    by_cases hd : n / 10 = 0
    · have hn : n < 10 := by omega
      have hm : n % 10 = n := Nat.mod_eq_of_lt hn
      simp [hd, natDigits_of_lt hn, hm]
    · have hn : ¬ n < 10 := by
        intro hlt
        exact hd (Nat.div_eq_of_lt hlt)
      have hfuel : n / 10 < fuel := by
        have h1 : n / 10 < n := Nat.div_lt_self (by omega) (by omega)
        omega
      simp [hd, ih (n / 10) _ hfuel, natDigits_of_ge hn, List.append_assoc]

lemma natRepr_data (n : Nat) : (Nat.repr n).data = natDigits n := by
  show (Nat.toDigits 10 n).asString.data = natDigits n
  show Nat.toDigitsCore 10 (n + 1) n [] = natDigits n
  rw [toDigitsCore_eq_natDigits (n + 1) n [] (by omega)]
  simp

lemma mem_natDigits :
    ∀ (n : Nat), ∀ c ∈ natDigits n, ∃ d, d < 10 ∧ c = Nat.digitChar d := by
  intro n
  induction n using Nat.strong_induction_on with
  | _ n ih =>
    intro c hc
    by_cases h : n < 10
    · rw [natDigits_of_lt h] at hc
      simp at hc
      exact ⟨n, h, hc⟩
    · rw [natDigits_of_ge h] at hc
      rcases List.mem_append.mp hc with h1 | h2
      · exact ih (n / 10) (Nat.div_lt_self (by omega) (by omega)) c h1
      · simp at h2
        exact ⟨n % 10, Nat.mod_lt _ (by omega), h2⟩

lemma digitChar_ne_underscore : ∀ d, d < 10 → Nat.digitChar d ≠ '_' := by decide

lemma digitChar_ne_dash : ∀ d, d < 10 → Nat.digitChar d ≠ '-' := by decide

lemma underscore_not_mem_natDigits (n : Nat) : '_' ∉ natDigits n := by
  intro hmem
  obtain ⟨d, hd, hc⟩ := mem_natDigits n _ hmem
  exact digitChar_ne_underscore d hd hc.symm

lemma dash_not_mem_natDigits (n : Nat) : '-' ∉ natDigits n := by
  intro hmem
  obtain ⟨d, hd, hc⟩ := mem_natDigits n _ hmem
  exact digitChar_ne_dash d hd hc.symm

lemma digitVal_digitChar : ∀ d, d < 10 → digitVal (Nat.digitChar d) = d := by
  decide

lemma foldl_digits_append (a : Nat) (l : List Char) (c : Char) :
    (l ++ [c]).foldl (fun a c => 10 * a + digitVal c) a =
      10 * l.foldl (fun a c => 10 * a + digitVal c) a + digitVal c := by
  rw [List.foldl_append]
  rfl

lemma valOfDigits_natDigits : ∀ n, valOfDigits (natDigits n) = n := by
  intro n
  induction n using Nat.strong_induction_on with
  | _ n ih =>
    by_cases h : n < 10
    · rw [natDigits_of_lt h]
      show 10 * 0 + digitVal (Nat.digitChar n) = n
      rw [digitVal_digitChar n h]
      omega
    · rw [natDigits_of_ge h]
      show (natDigits (n / 10) ++ [Nat.digitChar (n % 10)]).foldl _ 0 = n
      rw [foldl_digits_append]
      rw [show (natDigits (n / 10)).foldl (fun a c => 10 * a + digitVal c) 0
            = valOfDigits (natDigits (n / 10)) from rfl]
      rw [ih (n / 10) (Nat.div_lt_self (by omega) (by omega))]
      rw [digitVal_digitChar _ (Nat.mod_lt _ (by omega))]
      omega

lemma natDigits_inj {m n : Nat} (h : natDigits m = natDigits n) : m = n := by
  have hm := valOfDigits_natDigits m
  rw [h, valOfDigits_natDigits] at hm
  omega

lemma natDigits_ne_nil (n : Nat) : natDigits n ≠ [] := by
  by_cases h : n < 10
  · rw [natDigits_of_lt h]; simp
  · rw [natDigits_of_ge h]; simp

lemma natRepr_inj {m n : Nat} (h : Nat.repr m = Nat.repr n) : m = n := by
  apply natDigits_inj
  rw [← natRepr_data, ← natRepr_data, h]

lemma intRepr_data_ofNat (m : Nat) :
    (Int.repr (Int.ofNat m)).data = natDigits m := natRepr_data m

lemma intRepr_data_negSucc (m : Nat) :
    (Int.repr (Int.negSucc m)).data = '-' :: natDigits (m + 1) := by
  show ("-" ++ Nat.repr (m + 1)).data = '-' :: natDigits (m + 1)
  rw [String.data_append, natRepr_data]
  rfl

lemma underscore_not_mem_intRepr (i : Int) : '_' ∉ (Int.repr i).data := by
  cases i with
  | ofNat m => rw [intRepr_data_ofNat]; exact underscore_not_mem_natDigits m
  | negSucc m =>
    rw [intRepr_data_negSucc]
    intro hmem
    rcases List.mem_cons.mp hmem with h | h
    · exact absurd h (by decide)
    · exact underscore_not_mem_natDigits (m + 1) h

lemma intRepr_inj {i j : Int} (h : Int.repr i = Int.repr j) : i = j := by
  have hdata : (Int.repr i).data = (Int.repr j).data := by rw [h]
  cases i with
  | ofNat m =>
    cases j with
    | ofNat n =>
      rw [intRepr_data_ofNat, intRepr_data_ofNat] at hdata
      exact congrArg Int.ofNat (natDigits_inj hdata)
    | negSucc n =>
      rw [intRepr_data_ofNat, intRepr_data_negSucc] at hdata
      exfalso
      have : '-' ∈ natDigits m := by rw [hdata]; simp
      exact dash_not_mem_natDigits m this
  | negSucc m =>
    cases j with
    | ofNat n =>
      rw [intRepr_data_negSucc, intRepr_data_ofNat] at hdata
      exfalso
      have : '-' ∈ natDigits n := by rw [← hdata]; simp
      exact dash_not_mem_natDigits n this
    | negSucc n =>
      rw [intRepr_data_negSucc, intRepr_data_negSucc] at hdata
      injection hdata with _ h2
      have := natDigits_inj h2
      have hmn : m = n := by omega
      rw [hmn]

/-! ## Splitting the dedup key back into its components -/

lemma append_cons_inj (c : Char) :
    ∀ (a x b y : List Char), c ∉ a → c ∉ x →
      a ++ c :: b = x ++ c :: y → a = x ∧ b = y := by
  intro a
  induction a with
  | nil =>
    intro x b y _ hx h
    cases x with
    | nil => simpa using h
    | cons x0 xs =>
      exfalso
      simp at h
      exact hx (by simp [h.1])
  | cons a0 as ih =>
    intro x b y ha hx h
    cases x with
    | nil =>
      exfalso
      simp at h
      exact ha (by simp [h.1])
    | cons x0 xs =>
      simp at h
      obtain ⟨h0, h1⟩ := h
      have := ih xs b y (fun hm => ha (List.mem_cons_of_mem a0 hm))
        (fun hm => hx (List.mem_cons_of_mem x0 hm)) h1
      exact ⟨by rw [h0, this.1], this.2⟩

lemma key_split (s₁ t₁ i₁ s₂ t₂ i₂ : List Char)
    (ht₁ : '_' ∉ t₁) (hi₁ : '_' ∉ i₁) (ht₂ : '_' ∉ t₂) (hi₂ : '_' ∉ i₂)
    (h : s₁ ++ '_' :: (t₁ ++ '_' :: i₁) = s₂ ++ '_' :: (t₂ ++ '_' :: i₂)) :
    s₁ = s₂ ∧ t₁ = t₂ ∧ i₁ = i₂ := by
  have hrev : i₁.reverse ++ '_' :: (t₁.reverse ++ '_' :: s₁.reverse)
      = i₂.reverse ++ '_' :: (t₂.reverse ++ '_' :: s₂.reverse) := by
    have := congrArg List.reverse h
    simpa [List.reverse_append, List.append_assoc] using this
  have h1 := append_cons_inj '_' i₁.reverse i₂.reverse _ _
    (by simpa using hi₁) (by simpa using hi₂) hrev
  have h2 := append_cons_inj '_' t₁.reverse t₂.reverse _ _
    (by simpa using ht₁) (by simpa using ht₂) h1.2
  exact ⟨List.reverse_inj.mp h2.2, List.reverse_inj.mp h2.1,
    List.reverse_inj.mp h1.1⟩

lemma eventKey_data (e : LogEvent) :
    (eventKey e).data =
      e.logStreamName.data ++ '_' ::
        ((Int.repr e.timestamp).data ++ '_' :: (Nat.repr e.eventId).data) := by
  show (e.logStreamName ++ "_" ++ Int.repr e.timestamp ++ "_" ++
      Nat.repr e.eventId).data = _
  simp [String.data_append, List.append_assoc]

lemma eventKey_eq_components {e e' : LogEvent} (h : eventKey e = eventKey e') :
    e.logStreamName = e'.logStreamName ∧ e.timestamp = e'.timestamp ∧
      e.eventId = e'.eventId := by
  have hdata := congrArg String.data h
  rw [eventKey_data, eventKey_data] at hdata
  have hs := key_split _ _ _ _ _ _
    (underscore_not_mem_intRepr e.timestamp)
    (by rw [natRepr_data]; exact underscore_not_mem_natDigits e.eventId)
    (underscore_not_mem_intRepr e'.timestamp)
    (by rw [natRepr_data]; exact underscore_not_mem_natDigits e'.eventId)
    hdata
  exact ⟨String.ext hs.1, intRepr_inj (String.ext hs.2.1),
    natRepr_inj (String.ext hs.2.2)⟩

/-! ## Tailer invariants -/

lemma processEvent_last_le (st : TailState) (e : LogEvent) :
    st.last_timestamp ≤ (processEvent st e).last_timestamp := by
  unfold processEvent
  split
  · exact le_refl _
  · exact le_max_left _ _

lemma processBatch_last_le (b : List LogEvent) :
    ∀ st : TailState, st.last_timestamp ≤ (processBatch st b).last_timestamp := by
  induction b with
  | nil => intro st; exact le_refl _
  | cons e t ih =>
    intro st
    exact le_trans (processEvent_last_le st e) (ih (processEvent st e))

lemma processEvent_cursorInv {st : TailState} (h : CursorInv st) (e : LogEvent) :
    CursorInv (processEvent st e) := by
  intro e' he'
  unfold processEvent at he' ⊢
  by_cases hseen : st.seen_events.contains (eventKey e)
  · simp only [hseen, if_true] at he' ⊢
    exact h e' he'
  · simp only [hseen, Bool.false_eq_true, if_false] at he' ⊢
    rcases List.mem_cons.mp he' with hk | hk
    · have hts := (eventKey_eq_components hk).2.1
      rw [hts]
      calc e.timestamp < e.timestamp + 1 := by omega
        _ ≤ max st.last_timestamp (e.timestamp + 1) := le_max_right _ _
    · exact lt_of_lt_of_le (h e' hk) (le_max_left _ _)

lemma processEvent_ts_lt {st : TailState} (h : CursorInv st) (e : LogEvent) :
    e.timestamp < (processEvent st e).last_timestamp := by
  unfold processEvent
  by_cases hseen : st.seen_events.contains (eventKey e)
  · simp only [hseen, if_true]
    exact h e (List.mem_of_elem_eq_true hseen)
  · simp only [hseen, Bool.false_eq_true, if_false]
    calc e.timestamp < e.timestamp + 1 := by omega
      _ ≤ max st.last_timestamp (e.timestamp + 1) := le_max_right _ _

lemma processBatch_cursorInv (b : List LogEvent) :
    ∀ st : TailState, CursorInv st → CursorInv (processBatch st b) := by
  induction b with
  | nil => intro st h; exact h
  | cons e t ih =>
    intro st h
    exact ih (processEvent st e) (processEvent_cursorInv h e)

lemma processBatch_ts_lt (b : List LogEvent) :
    ∀ st : TailState, CursorInv st →
      ∀ e ∈ b, e.timestamp < (processBatch st b).last_timestamp := by
  induction b with
  | nil => intro st _ e he; exact absurd he (List.not_mem_nil e)
  | cons e0 t ih =>
    intro st h e he
    rcases List.mem_cons.mp he with he | he
    · subst he
      calc e.timestamp < (processEvent st e).last_timestamp :=
            processEvent_ts_lt h e
        _ ≤ (processBatch (processEvent st e) t).last_timestamp :=
            processBatch_last_le t _
    · exact ih (processEvent st e0) (processEvent_cursorInv h e0) e he

lemma tail_logs_run_cursorInv (initTimestamp : Int) :
    ∀ batches : List (List LogEvent),
      CursorInv (tail_logs_run initTimestamp batches) := by
  have main : ∀ (batches : List (List LogEvent)) (st : TailState),
      CursorInv st → CursorInv (batches.foldl processBatch st) := by
    intro batches
    induction batches with
    | nil => intro st h; exact h
    | cons b t ih =>
      intro st h
      exact ih (processBatch st b) (processBatch_cursorInv b st h)
  intro batches
  exact main batches _ (fun e he => absurd he (List.not_mem_nil _))

lemma tail_logs_run_append (initTimestamp : Int)
    (pre : List (List LogEvent)) (b : List LogEvent) :
    tail_logs_run initTimestamp (pre ++ [b])
      = processBatch (tail_logs_run initTimestamp pre) b := by
  unfold tail_logs_run
  rw [List.foldl_append]
  rfl

lemma processEvent_seenInv {st : TailState} (h : SeenInv st) (e : LogEvent) :
    SeenInv (processEvent st e) := by
  intro k
  unfold processEvent
  by_cases hseen : st.seen_events.contains (eventKey e)
  · simp only [hseen, if_true]
    exact h k
  · simp only [hseen, Bool.false_eq_true, if_false]
    have hnot : eventKey e ∉ st.seen_events := by
      intro hmem
      exact absurd (List.elem_eq_true_of_mem hmem) (by simpa using hseen)
    by_cases hk : k = eventKey e
    · subst hk
      simp only [List.filter_append, List.length_append, List.mem_cons]
      rw [h (eventKey e)]
      simp [hnot]
    · simp only [List.filter_append, List.length_append, List.mem_cons]
      rw [h k]
      have hbeq : (eventKey e == k) = false := by
        simp only [beq_eq_false_iff_ne, ne_eq]
        intro hc
        exact hk hc.symm
      simp [hbeq, hk]

lemma processEvent_seen_mem (st : TailState) (e : LogEvent) (k : String) :
    k ∈ (processEvent st e).seen_events ↔
      k = eventKey e ∨ k ∈ st.seen_events := by
  unfold processEvent
  by_cases hseen : st.seen_events.contains (eventKey e)
  · simp only [hseen, if_true]
    constructor
    · exact Or.inr
    · intro h
      rcases h with h | h
      · rw [h]; exact List.mem_of_elem_eq_true hseen
      · exact h
  · simp only [hseen, Bool.false_eq_true, if_false]
    exact List.mem_cons

lemma processBatch_seenInv (b : List LogEvent) :
    ∀ st : TailState, SeenInv st → SeenInv (processBatch st b) := by
  induction b with
  | nil => intro st h; exact h
  | cons e t ih =>
    intro st h
    exact ih (processEvent st e) (processEvent_seenInv h e)

lemma processBatch_seen_mem (b : List LogEvent) :
    ∀ (st : TailState) (k : String),
      k ∈ (processBatch st b).seen_events ↔
        (∃ e ∈ b, eventKey e = k) ∨ k ∈ st.seen_events := by
  induction b with
  | nil =>
    intro st k
    simp [processBatch]
  | cons e t ih =>
    intro st k
    show k ∈ (processBatch (processEvent st e) t).seen_events ↔ _
    rw [ih (processEvent st e) k, processEvent_seen_mem]
    constructor
    · rintro (⟨e', he', hk⟩ | hk | hk)
      · exact Or.inl ⟨e', List.mem_cons_of_mem e he', hk⟩
      · exact Or.inl ⟨e, List.mem_cons_self e t, hk.symm⟩
      · exact Or.inr hk
    · rintro (⟨e', he', hk⟩ | hk)
      · rcases List.mem_cons.mp he' with h | h
        · subst h
          exact Or.inr (Or.inl hk.symm)
        · exact Or.inl ⟨e', h, hk⟩
      · exact Or.inr (Or.inr hk)

lemma tail_logs_run_seenInv (initTimestamp : Int)
    (batches : List (List LogEvent)) :
    SeenInv (tail_logs_run initTimestamp batches) := by
  have main : ∀ (bs : List (List LogEvent)) (st : TailState),
      SeenInv st → SeenInv (bs.foldl processBatch st) := by
    intro bs
    induction bs with
    | nil => intro st h; exact h
    | cons b t ih =>
      intro st h
      exact ih (processBatch st b) (processBatch_seenInv b st h)
  exact main batches _ (fun k => by simp)

lemma tail_logs_run_seen_mem (initTimestamp : Int)
    (batches : List (List LogEvent)) (k : String) :
    k ∈ (tail_logs_run initTimestamp batches).seen_events ↔
      ∃ e ∈ batches.flatten, eventKey e = k := by
  have main : ∀ (bs : List (List LogEvent)) (st : TailState),
      k ∈ (bs.foldl processBatch st).seen_events ↔
        (∃ e ∈ bs.flatten, eventKey e = k) ∨ k ∈ st.seen_events := by
    intro bs
    induction bs with
    | nil => intro st; simp
    | cons b t ih =>
      intro st
      show k ∈ (t.foldl processBatch (processBatch st b)).seen_events ↔ _
      rw [ih (processBatch st b), processBatch_seen_mem]
      simp only [List.flatten_cons, List.mem_append]
      constructor
      · rintro (⟨e, he, hk⟩ | ⟨e, he, hk⟩ | hk)
        · exact Or.inl ⟨e, Or.inr he, hk⟩
        · exact Or.inl ⟨e, Or.inl he, hk⟩
        · exact Or.inr hk
      · rintro (⟨e, he | he, hk⟩ | hk)
        · exact Or.inr (Or.inl ⟨e, he, hk⟩)
        · exact Or.inl ⟨e, he, hk⟩
        · exact Or.inr (Or.inr hk)
  rw [show tail_logs_run initTimestamp batches
      = batches.foldl processBatch
          { last_timestamp := initTimestamp, seen_events := [], printed := [] }
    from rfl, main]
  simp

/-! ## Poller lemmas -/

lemma pollLoop_transient_skip (src : Nat → StatusResp) (interval W : Nat) :
    ∀ (n fuel i elapsed : Nat), n < fuel →
      elapsed + n * interval < W →
      (∀ k, k < n → transientResp (src (i + k))) →
      pollLoop src interval W fuel i elapsed
        = pollLoop src interval W (fuel - n) (i + n) (elapsed + n * interval) := by
  intro n
  induction n with
  | zero =>
    intro fuel i elapsed _ _ _
    simp
  | succ n ih =>
    intro fuel i elapsed hfuel helapsed htrans
    obtain ⟨f, rfl⟩ : ∃ f, fuel = f + 1 := ⟨fuel - 1, by omega⟩
    have hexp : (n + 1) * interval = n * interval + interval := by ring
    have hlt : elapsed < W := by omega
    have h0 := htrans 0 (by omega)
    rw [Nat.add_zero] at h0
    have hstep : pollLoop src interval W (f + 1) i elapsed
        = pollLoop src interval W f (i + 1) (elapsed + interval) := by
      show (if elapsed < W then
              match src i with
              | .status s =>
                if s = "InService" then ("InService", elapsed)
                else if s = "Failed" then ("Failed", elapsed)
                else pollLoop src interval W f (i + 1) (elapsed + interval)
              | .clientError msg =>
                if strHasSub msg notFoundText then
                  pollLoop src interval W f (i + 1) (elapsed + interval)
                else ("Error", elapsed)
              | .otherError => ("Error", elapsed)
            else ("Timeout", elapsed))
          = pollLoop src interval W f (i + 1) (elapsed + interval)
      rcases h0 with ⟨s, hs, hs1, hs2⟩ | ⟨m, hm, hm1⟩
      · rw [if_pos hlt, hs]
        simp [hs1, hs2]
      · rw [if_pos hlt, hm]
        simp [hm1]
    rw [hstep, ih f (i + 1) (elapsed + interval) (by omega)
      (by omega)
      (fun k hk => by
        have := htrans (k + 1) (by omega)
        rw [show i + (k + 1) = i + 1 + k by omega] at this
        exact this)]
    congr 1
    · omega
    · omega
    · omega

lemma pollLoop_timeout (src : Nat → StatusResp) (interval W : Nat)
    (hint : 0 < interval)
    (hsrc : ∀ n, ∃ s, src n = StatusResp.status s ∧
      s ≠ "InService" ∧ s ≠ "Failed") :
    ∀ (fuel i elapsed : Nat), W - elapsed < fuel → elapsed < W + interval →
      ∃ e, pollLoop src interval W fuel i elapsed = ("Timeout", e) ∧
        W ≤ e ∧ e < W + interval := by
  intro fuel
  induction fuel with
  | zero => intro i elapsed h _; omega
  | succ fuel ih =>
    intro i elapsed hfuel hub
    by_cases hlt : elapsed < W
    · obtain ⟨s, hs, hs1, hs2⟩ := hsrc i
      have hstep : pollLoop src interval W (fuel + 1) i elapsed
          = pollLoop src interval W fuel (i + 1) (elapsed + interval) := by
        show (if elapsed < W then
                match src i with
                | .status s =>
                  if s = "InService" then ("InService", elapsed)
                  else if s = "Failed" then ("Failed", elapsed)
                  else pollLoop src interval W fuel (i + 1) (elapsed + interval)
                | .clientError msg =>
                  if strHasSub msg notFoundText then
                    pollLoop src interval W fuel (i + 1) (elapsed + interval)
                  else ("Error", elapsed)
                | .otherError => ("Error", elapsed)
              else ("Timeout", elapsed))
            = pollLoop src interval W fuel (i + 1) (elapsed + interval)
        rw [if_pos hlt, hs]
        simp [hs1, hs2]
      rw [hstep]
      exact ih (i + 1) (elapsed + interval) (by omega) (by omega)
    · refine ⟨elapsed, ?_, by omega, hub⟩
      show (if elapsed < W then _ else ("Timeout", elapsed)) = ("Timeout", elapsed)
      rw [if_neg hlt]

/-! ## `validate_env_vars` fold characterisation -/

lemma validate_env_vars_foldl (env : String → Option String) :
    ∀ (required : List (String × String)) (errs : List String)
      (vals : List (String × String)),
      required.foldl (envStep env) (errs, vals)
        = (errs ++ ((required.filter fun p => envVarBlank (env p.1)).map
             Prod.fst),
           vals ++ ((required.filter fun p => ! envVarBlank (env p.1)).map
             fun p => (p.1, (env p.1).getD ""))) := by
  intro required
  induction required with
  | nil => intro errs vals; simp
  | cons p t ih =>
    intro errs vals
    show t.foldl (envStep env) (envStep env (errs, vals) p) = _
    cases henv : env p.1 with
    | none =>
      have hstep : envStep env (errs, vals) p = (errs ++ [p.1], vals) := by
        unfold envStep
        rw [henv]
      have hblank : envVarBlank (env p.1) = true := by rw [henv]; rfl
      rw [hstep, ih]
      simp [List.filter_cons, hblank, List.append_assoc]
    | some v =>
      by_cases hb : (v == "" || pyStrip v == "") = true
      · have hstep : envStep env (errs, vals) p = (errs ++ [p.1], vals) := by
          unfold envStep
          rw [henv]
          simp [hb]
        have hblank : envVarBlank (env p.1) = true := by
          rw [henv]
          exact hb
        rw [hstep, ih]
        simp [List.filter_cons, hblank, List.append_assoc]
      · have hstep : envStep env (errs, vals) p
            = (errs, vals ++ [(p.1, v)]) := by
          unfold envStep
          rw [henv]
          simp [hb]
        have hblank : envVarBlank (some v) = false := by
          show (v == "" || pyStrip v == "") = false
          cases hbool : (v == "" || pyStrip v == "") with
          | false => rfl
          | true => exact absurd hbool hb
        rw [hstep, ih]
        simp [List.filter_cons, henv, hblank, List.append_assoc]

/-! ## Claim theorems -/

/-- C1 counterexample: with `delete_config` enabled, endpoint deletion
succeeding and config deletion failing with a `ClientError`, the function
returns `True` (a truthy success outcome), contradicting the claim that the
caller receives a falsy failure outcome. -/
theorem delete_endpoint_config_clientError_returns_true :
    delete_endpoint CallResult.ok
      (CallResult.clientError "AccessDeniedException") true = true := rfl

/-- C1 (amended): when endpoint deletion succeeds and the subsequent config
deletion fails, no exception propagates to the caller; a `ClientError` from
the config deletion is only logged as a warning and the function still
returns `True`, while a non-`ClientError` exception makes it return
`False`. -/
theorem delete_endpoint_config_failure_spec (m : String) :
    delete_endpoint CallResult.ok (CallResult.clientError m) true = true ∧
    delete_endpoint CallResult.ok CallResult.otherError true = false :=
  ⟨rfl, rfl⟩

/-- C2: the monitor returns exactly the poller's terminal state whenever the
poller wrote one; but when the poller produced no result, the returned value
is Python `None`, not the string `'Unknown'`: the `dict.get` default is
unreachable because the `'status'` key is initialised (to `None`) and hence
always present. -/
theorem monitor_and_tail_result_spec :
    (∀ s : String, monitor_and_tail_result (some s) = PyVal.pyStr s) ∧
    monitor_and_tail_result none = PyVal.pyNone ∧
    monitor_and_tail_result none ≠ PyVal.pyStr "Unknown" := by
  refine ⟨fun s => ?_, rfl, by decide⟩
  rfl

/-- C9: `generate_endpoint_name` returns a non-empty custom name unchanged,
but silently replaces both an explicitly passed empty string and a missing
name with the auto-generated `qc-ai-detection-ep-<utc timestamp>` name. -/
theorem generate_endpoint_name_spec :
    (∀ (s ts : String), s ≠ "" → generate_endpoint_name (some s) ts = s) ∧
    (∀ ts : String, generate_endpoint_name (some "") ts
        = "qc-ai-detection-ep-" ++ ts) ∧
    (∀ ts : String, generate_endpoint_name none ts
        = "qc-ai-detection-ep-" ++ ts) := by
  refine ⟨fun s ts h => ?_, fun ts => rfl, fun ts => rfl⟩
  simp [generate_endpoint_name, h]

/-- Witness for C9 at a concrete non-empty custom name. -/
theorem generate_endpoint_name_spec_witness :
    generate_endpoint_name (some "qc-production-endpoint") "2026-01-29-15-30-45"
      = "qc-production-endpoint" :=
  generate_endpoint_name_spec.1 "qc-production-endpoint" "2026-01-29-15-30-45"
    (by decide)

/-- C10: `validate_env_vars` treats unset, empty, and whitespace-only values
alike: when every required variable has a non-blank value, it returns the
dictionary of exactly those variables with their values; when any required
variable is unset, empty, or whitespace-only, it terminates the process with
exit code 1 instead of returning. -/
theorem validate_env_vars_spec (required : List (String × String))
    (env : String → Option String) :
    ((∀ p ∈ required, envVarBlank (env p.1) = false) →
      validate_env_vars required env
        = .ok (required.map fun p => (p.1, (env p.1).getD ""))) ∧
    ((∃ p ∈ required, envVarBlank (env p.1) = true) →
      validate_env_vars required env = .error 1) := by
  constructor
  · intro hall
    unfold validate_env_vars
    rw [validate_env_vars_foldl]
    have hfil : required.filter (fun p => envVarBlank (env p.1)) = [] := by
      rw [List.filter_eq_nil_iff]
      intro p hp
      simp [hall p hp]
    have hfil2 : required.filter (fun p => ! envVarBlank (env p.1))
        = required :=
      List.filter_eq_self.mpr (fun p hp => by simp [hall p hp])
    simp [hfil, hfil2]
  · rintro ⟨p, hp, hb⟩
    unfold validate_env_vars
    rw [validate_env_vars_foldl]
    have hmem : p ∈ required.filter (fun p => envVarBlank (env p.1)) :=
      List.mem_filter.mpr ⟨hp, hb⟩
    cases hmap : (required.filter fun p => envVarBlank (env p.1)).map
        Prod.fst with
    | nil =>
      exfalso
      have hnil := List.map_eq_nil_iff.mp hmap
      rw [hnil] at hmem
      exact absurd hmem (List.not_mem_nil p)
    | cons a t =>
      simp [hmap]

/-- Witness for C10: a fully set environment validates to the full
dictionary; a whitespace-only value for a required variable exits with
code 1. -/
theorem validate_env_vars_spec_witness :
    validate_env_vars deployRequiredEnv envAllSet
      = .ok [("AWS_REGION", "ca-central-1"),
             ("SAGEMAKER_EXECUTION_ROLE_ARN",
              "arn:aws:iam::123456789012:role/SageMakerRole")] ∧
    validate_env_vars [("AWS_REGION", "AWS region for SageMaker deployment")]
        (fun _ => some "   ") = .error 1 := by
  constructor
  · exact ((validate_env_vars_spec deployRequiredEnv envAllSet).1
      (by decide)).trans rfl
  · exact (validate_env_vars_spec _ _).2
      ⟨("AWS_REGION", "AWS region for SageMaker deployment"),
        by decide, by decide⟩

/-- One unfolding step of the polling loop. -/
lemma pollLoop_succ (src : Nat → StatusResp) (interval W fuel i elapsed : Nat) :
    pollLoop src interval W (fuel + 1) i elapsed
      = if elapsed < W then
          match src i with
          | .status s =>
            if s = "InService" then ("InService", elapsed)
            else if s = "Failed" then ("Failed", elapsed)
            else pollLoop src interval W fuel (i + 1) (elapsed + interval)
          | .clientError msg =>
            if strHasSub msg notFoundText then
              pollLoop src interval W fuel (i + 1) (elapsed + interval)
            else ("Error", elapsed)
          | .otherError => ("Error", elapsed)
        else ("Timeout", elapsed) := rfl

/-- C3: with a positive poll interval, against a status source that only ever
reports non-terminal states, the poller returns `'Timeout'`, and the elapsed
time (the sum of the interval sleeps performed) at that moment is at least
`max_wait_seconds` and less than `max_wait_seconds` plus one interval. -/
theorem monitor_endpoint_status_timeout (src : Nat → StatusResp)
    (interval W : Nat) (hint : 0 < interval)
    (hsrc : ∀ n, ∃ s, src n = StatusResp.status s ∧
      s ≠ "InService" ∧ s ≠ "Failed") :
    ∃ e, monitor_endpoint_status src interval W = ("Timeout", e) ∧
      W ≤ e ∧ e < W + interval :=
  pollLoop_timeout src interval W hint hsrc (W + 1) 0 0 (by omega) (by omega)

/-- Witness for C3: Scenario D of the spec — `max_wait_seconds = 60`,
interval 30, source always `Creating`. -/
theorem monitor_endpoint_status_timeout_witness :
    ∃ e, monitor_endpoint_status (fun _ => StatusResp.status "Creating") 30 60
        = ("Timeout", e) ∧ 60 ≤ e ∧ e < 60 + 30 :=
  monitor_endpoint_status_timeout (fun _ => StatusResp.status "Creating") 30 60
    (by omega) (fun _ => ⟨"Creating", rfl, by decide, by decide⟩)

/-- C4: a not-found client error is transient — after finitely many not-found
polls followed by `InService` within the wait budget the poller returns
`'InService'` (having slept one interval per retry) — while any other
collaborator error terminates polling immediately with `'Error'` and no
further sleep. -/
theorem monitor_endpoint_status_notfound_spec :
    (∀ (src : Nat → StatusResp) (interval W n : Nat), 0 < interval →
      n * interval < W →
      (∀ k, k < n → ∃ m, src k = StatusResp.clientError m ∧
        strHasSub m notFoundText = true) →
      src n = StatusResp.status "InService" →
      monitor_endpoint_status src interval W = ("InService", n * interval)) ∧
    (∀ (src : Nat → StatusResp) (interval W n : Nat), 0 < interval →
      n * interval < W →
      (∀ k, k < n → transientResp (src k)) →
      unrecoverableResp (src n) →
      monitor_endpoint_status src interval W = ("Error", n * interval)) := by
  have hskip : ∀ (src : Nat → StatusResp) (interval W n : Nat), 0 < interval →
      n * interval < W →
      (∀ k, k < n → transientResp (src k)) →
      ∃ f, W + 1 - n = f + 1 ∧
        monitor_endpoint_status src interval W
          = pollLoop src interval W (f + 1) n (n * interval) := by
    intro src interval W n hint hbud htrans
    have hn1 : n < W + 1 := by
      rcases Nat.eq_zero_or_pos n with hn | hn
      · omega
      · have h1 : n * 1 ≤ n * interval := Nat.mul_le_mul_left n hint
        omega
    refine ⟨W - n, by omega, ?_⟩
    unfold monitor_endpoint_status
    rw [pollLoop_transient_skip src interval W n (W + 1) 0 0 hn1 (by omega)
      (fun k hk => by
        rw [Nat.zero_add]
        exact htrans k hk)]
    simp only [Nat.zero_add]
    congr 1
    omega
  constructor
  · intro src interval W n hint hbud hnf hin
    obtain ⟨f, _, heq⟩ := hskip src interval W n hint hbud
      (fun k hk => Or.inr (hnf k hk))
    rw [heq, pollLoop_succ, if_pos hbud, hin]
    simp
  · intro src interval W n hint hbud htrans hunrec
    obtain ⟨f, _, heq⟩ := hskip src interval W n hint hbud htrans
    rw [heq, pollLoop_succ, if_pos hbud]
    rcases hunrec with ⟨m, hm, hsub⟩ | hm
    · rw [hm]
      simp [hsub]
    · rw [hm]

/-- Witness for C4: five not-found polls then `InService` (Scenario C), and a
first transient poll followed by an unrecoverable validation error. -/
theorem monitor_endpoint_status_notfound_spec_witness :
    monitor_endpoint_status
        (fun i => if i < 5 then
            StatusResp.clientError "Could not find endpoint qc-ai-detection-ep"
          else StatusResp.status "InService") 30 1800
      = ("InService", 150) ∧
    monitor_endpoint_status
        (fun i => if i = 0 then StatusResp.status "Creating"
          else StatusResp.clientError "ValidationException: not permitted")
        30 1800
      = ("Error", 30) := by
  constructor
  · have h := monitor_endpoint_status_notfound_spec.1
      (fun i => if i < 5 then
          StatusResp.clientError "Could not find endpoint qc-ai-detection-ep"
        else StatusResp.status "InService") 30 1800 5
      (by omega) (by omega)
      (fun k hk => ⟨"Could not find endpoint qc-ai-detection-ep",
        by simp [hk], by decide⟩)
      (by simp)
    simpa using h
  · have h := monitor_endpoint_status_notfound_spec.2
      (fun i => if i = 0 then StatusResp.status "Creating"
        else StatusResp.clientError "ValidationException: not permitted")
      30 1800 1
      (by omega) (by omega)
      (fun k hk => by
        have hk0 : k = 0 := by omega
        subst hk0
        exact Or.inl ⟨"Creating", rfl, by decide, by decide⟩)
      (Or.inl ⟨"ValidationException: not permitted", by simp, by decide⟩)
    simpa using h

/-- C5: within one tailing session the batches may repeat events with the
same identity key (stream name, timestamp, event id); every identity key
occurring in the delivered batches is printed exactly once, no matter how
many times or in how many batches it appears. -/
theorem tail_logs_dedup (initTimestamp : Int) (batches : List (List LogEvent))
    (e : LogEvent) (he : e ∈ batches.flatten) :
    ((tail_logs_run initTimestamp batches).printed.filter
        (fun p => p.logStreamName == e.logStreamName &&
          p.timestamp == e.timestamp && p.eventId == e.eventId)).length = 1 := by
  have hfil : ∀ p ∈ (tail_logs_run initTimestamp batches).printed,
      (p.logStreamName == e.logStreamName && p.timestamp == e.timestamp &&
        p.eventId == e.eventId)
        = (eventKey p == eventKey e) := by
    intro p _
    rw [Bool.eq_iff_iff]
    simp only [Bool.and_eq_true, beq_iff_eq]
    constructor
    · rintro ⟨⟨h1, h2⟩, h3⟩
      show eventKey p = eventKey e
      unfold eventKey
      rw [h1, h2, h3]
    · intro hq
      have hc := eventKey_eq_components hq
      exact ⟨⟨hc.1, hc.2.1⟩, hc.2.2⟩
  rw [List.filter_congr hfil,
    tail_logs_run_seenInv initTimestamp batches (eventKey e),
    if_pos ((tail_logs_run_seen_mem initTimestamp batches (eventKey e)).mpr
      ⟨e, he, rfl⟩)]

/-- Witness for C5: Scenario E — the same event delivered twice across two
batches is printed once. -/
theorem tail_logs_dedup_witness :
    ((tail_logs_run 0
        [[⟨"s1", 100, 1, "line-a"⟩, ⟨"s1", 100, 1, "line-a"⟩],
         [⟨"s1", 105, 2, "line-b"⟩]]).printed.filter
        (fun p => p.logStreamName == "s1" && p.timestamp == (100 : Int) &&
          p.eventId == 1)).length = 1 := by
  have h := tail_logs_dedup 0
    [[⟨"s1", 100, 1, "line-a"⟩, ⟨"s1", 100, 1, "line-a"⟩],
     [⟨"s1", 105, 2, "line-b"⟩]]
    ⟨"s1", 100, 1, "line-a"⟩ (by decide)
  simpa using h

/-- C6: the session state after the batch sequence `pre ++ [b]` is the state
after `pre` updated with `b`; after processing `b` the cursor is at least
every timestamp occurring in `b` (also when all of `b` was deduplicated as
already seen), and the cursor never decreases from one batch to the next. -/
theorem tail_logs_cursor_monotone (initTimestamp : Int)
    (pre : List (List LogEvent)) (b : List LogEvent) :
    tail_logs_run initTimestamp (pre ++ [b])
        = processBatch (tail_logs_run initTimestamp pre) b ∧
    (∀ e ∈ b, e.timestamp
        ≤ (tail_logs_run initTimestamp (pre ++ [b])).last_timestamp) ∧
    (tail_logs_run initTimestamp pre).last_timestamp
        ≤ (tail_logs_run initTimestamp (pre ++ [b])).last_timestamp := by
  have happ := tail_logs_run_append initTimestamp pre b
  refine ⟨happ, ?_, ?_⟩
  · intro e he
    rw [happ]
    exact le_of_lt (processBatch_ts_lt b _
      (tail_logs_run_cursorInv initTimestamp pre) e he)
  · rw [happ]
    exact processBatch_last_le b _

/-- Witness for C6: a batch consisting of one already-seen event and one new
event with a smaller timestamp still leaves the cursor at or above the
batch's maximum timestamp. -/
theorem tail_logs_cursor_monotone_witness :
    (100 : Int) ≤ (tail_logs_run 0
        ([[⟨"s1", 100, 1, "line-a"⟩]] ++
         [[⟨"s1", 100, 1, "line-a"⟩, ⟨"s1", 50, 3, "line-c"⟩]])).last_timestamp :=
  (tail_logs_cursor_monotone 0 [[⟨"s1", 100, 1, "line-a"⟩]]
      [⟨"s1", 100, 1, "line-a"⟩, ⟨"s1", 50, 3, "line-c"⟩]).2.1
    ⟨"s1", 100, 1, "line-a"⟩ (by decide)

/-- C7: for each terminal state among `Failed`, `Timeout`, `InService` and
either rollback setting, `handle_deployment_result` invokes the rollback
deletion exactly when the state is not `InService` and rollback is
enabled. -/
theorem handle_deployment_result_rollback_iff (status : String)
    (rollback rbOutcome : Bool)
    (hst : status = "Failed" ∨ status = "Timeout" ∨ status = "InService") :
    (handle_deployment_result status rollback rbOutcome).rollbackInvoked = true
      ↔ (status ≠ "InService" ∧ rollback = true) := by
  rcases hst with h | h | h <;> subst h <;> cases rollback <;>
    cases rbOutcome <;> decide

/-- Witness for C7 at `Failed` with rollback enabled. -/
theorem handle_deployment_result_rollback_iff_witness :
    (handle_deployment_result "Failed" true true).rollbackInvoked = true ↔
      ("Failed" ≠ "InService" ∧ true = true) :=
  handle_deployment_result_rollback_iff "Failed" true true (Or.inl rfl)

lemma handle_deployment_result_exitCode (status : String)
    (rollback rbOutcome : Bool) :
    (handle_deployment_result status rollback rbOutcome).exitCode
      = if status = "InService" then 0 else 1 := by
  unfold handle_deployment_result
  split_ifs <;> rfl

/-- C8: the process exit code is 0 exactly when all validation steps pass and
either monitoring is disabled (detached background deployment) or the final
state is `InService`; every other terminal outcome — validation error,
`Failed`, `Timeout`, or any other final state — exits with code 1, and the
code never depends on whether the rollback itself succeeded. -/
theorem main_exit_code_spec
    (envValid typeValid packagesFound monitorEnabled : Bool)
    (status : String) (rollbackEnabled rbOutcome rbOutcome' : Bool) :
    (main_exit_code envValid typeValid packagesFound monitorEnabled status
        rollbackEnabled rbOutcome = 0 ↔
      (envValid = true ∧ typeValid = true ∧ packagesFound = true ∧
        (monitorEnabled = false ∨ status = "InService"))) ∧
    (main_exit_code envValid typeValid packagesFound monitorEnabled status
        rollbackEnabled rbOutcome = 0 ∨
     main_exit_code envValid typeValid packagesFound monitorEnabled status
        rollbackEnabled rbOutcome = 1) ∧
    main_exit_code envValid typeValid packagesFound monitorEnabled status
        rollbackEnabled rbOutcome
      = main_exit_code envValid typeValid packagesFound monitorEnabled status
        rollbackEnabled rbOutcome' := by
  cases envValid <;> cases typeValid <;> cases packagesFound <;>
    cases monitorEnabled <;>
      by_cases hs : status = "InService" <;>
        simp [main_exit_code, handle_deployment_result_exitCode, hs]
